import Mathlib

/-!
Verification of the core of `generate_readme.py`: the star-history
aggregator (`aggregate_star_history`), the SVG label-layout engine inside
`generate_star_trend_svg`, and the pin-bonus ranking in `generate_readme`.

The Python code is shallowly embedded:
* dictionaries (`defaultdict(int)`, `defaultdict(list)`) become association
  lists updated exactly as the code updates them (increment the existing
  entry, else append a fresh entry at the end);
* Python's lexicographic string comparison (used by `sorted` on date
  strings) is embedded as `date_le`, code-point lexicographic order on the
  characters of the string — the same order Python uses;
* Python's stable `sorted` becomes `List.insertionSort`, which is a stable
  sort, with the corresponding relation (for `reverse=True` the relation is
  flipped);
* floating-point canvas arithmetic becomes exact `ℚ` arithmetic (the
  layout algorithm only adds, scales and compares coordinates);
* the network fetch `fetch_repo_stargazers_history` and `datetime.now()`
  are opaque parameters (`fetch`, `today`) of the embedding.
-/

namespace GenerateReadme

/-! ### Lexicographic order on date strings (Python string comparison) -/

/-- Code-point lexicographic `≤` on character lists, as Python compares
strings. -/
def chars_le : List Char → List Char → Bool
  | [], _ => true
  | _ :: _, [] => false
  | a :: as, b :: bs => if a < b then true else if a = b then chars_le as bs else false

/-- Python's `<=` on strings (code-point lexicographic). -/
def date_le (a b : String) : Bool := chars_le a.data b.data

/-! ### The aggregation phase of `aggregate_star_history` (lines 109-133) -/

/-- One entry of the `all_stargazers` list: the dict
`{'starred_at': ts, 'repo': name}`. -/
structure StarEvent where
  starred_at : String
  repo : String
deriving DecidableEq

/-- Line 116: `star['starred_at'][:10]`, the date bucket of an event. -/
def event_date (e : StarEvent) : String := e.starred_at.take 10

/-- Line 117: `daily_stars[date] += 1` on the `defaultdict(int)`: increment the
existing entry, else append a fresh entry with count 1 (line 117). -/
def bump_date : List (String × Nat) → String → List (String × Nat)
  | [], d => [(d, 1)]
  | (k, v) :: rest, d => if k = d then (k, v + 1) :: rest else (k, v) :: bump_date rest d

/-- Python `date in dict`, the key membership test. -/
def has_date : List (String × Nat) → String → Bool
  | [], _ => false
  | (k, _) :: rest, d => if k = d then true else has_date rest d

/-- Lookup `daily_stars[date]` of a date's count (0 when absent, as in
the `defaultdict`). -/
def lookup_count : List (String × Nat) → String → Nat
  | [], _ => 0
  | (k, v) :: rest, d => if k = d then v else lookup_count rest d

/-- Lines 119-121: `if created_date not in daily_stars:
daily_stars[created_date] = 0`. -/
def ensure_date (m : List (String × Nat)) (d : String) : List (String × Nat) :=
  if has_date m d then m else m ++ [(d, 0)]

/-- Lines 113-121: bucket the events by date, then force a (possibly zero)
entry for every repo-creation date. -/
def daily_star_counts (events : List StarEvent)
    (creations : List (String × List String)) : List (String × Nat) :=
  (creations.map Prod.fst).foldl ensure_date
    (events.foldl (fun m e => bump_date m (event_date e)) [])

/-- Line 124: `sorted(daily_stars.keys())`, ascending lexicographic order
on the date strings. -/
def sorted_dates (m : List (String × Nat)) : List String :=
  List.insertionSort (fun a b => date_le a b = true) (m.map Prod.fst)

/-- Lines 126-133: the running prefix sum `total += daily_stars[date]`,
emitting one `(date, total)` point per date. -/
def cumulate (m : List (String × Nat)) (total : Nat) : List String → List (String × Nat)
  | [] => []
  | d :: ds => (d, total + lookup_count m d) :: cumulate m (total + lookup_count m d) ds

/-- Lines 109-133 of `aggregate_star_history`: the pure aggregation of an
event list and a creation-date index into the cumulative series.  An empty
event list returns the empty series (line 109-111). -/
def aggregate_events (all_stargazers : List StarEvent)
    (repo_creations : List (String × List String)) : List (String × Nat) :=
  if all_stargazers.isEmpty then []
  else
    let daily := daily_star_counts all_stargazers repo_creations
    cumulate daily 0 (sorted_dates daily)

/-! ### The collection phase of `aggregate_star_history` (lines 77-107) -/

/-- The fields of a repository record that the core reads
(`repo.get(...)` with the defaults the code uses). -/
structure Repo where
  name : String
  stargazers_count : Nat
  created_at : String
  updated_at : String
  fork : Bool
deriving DecidableEq

/-- Line 87: `created_at = repo.get('created_at', '')[:10]`. -/
def created_date (r : Repo) : String := r.created_at.take 10

/-- Line 102: `fallback_date = created_at or repo.get('updated_at', '')[:10]
or datetime.now().strftime('%Y-%m-%d')` — Python `or` takes the first
non-empty string. -/
def fallback_date (today : String) (r : Repo) : String :=
  if created_date r ≠ "" then created_date r
  else if r.updated_at.take 10 ≠ "" then r.updated_at.take 10
  else today

/-- Lines 93-107 for a single repository: skip 0-star repositories, fetch
the real star timestamps, then backfill the shortfall with synthetic
events dated `fallback_date` (the `if missing_stars > 0` guard is the
truncated subtraction). `fetch` stands for
`fetch_repo_stargazers_history`, which tags each event with the repo
name. -/
def collect_one (fetch : String → List String) (today : String) (r : Repo) :
    List StarEvent :=
  if r.stargazers_count = 0 then []
  else
    let stargazers := (fetch r.name).map (fun ts => StarEvent.mk ts r.name)
    let missing := r.stargazers_count - stargazers.length
    stargazers ++ List.replicate missing
      (StarEvent.mk (fallback_date today r ++ "T00:00:00Z") r.name)

/-- Line 81: `sorted(repos, key=lambda x: x.get('stargazers_count', 0),
reverse=True)` — a stable descending sort by star count. -/
def sort_by_stars (repos : List Repo) : List Repo :=
  List.insertionSort (fun a b => b.stargazers_count ≤ a.stargazers_count) repos

/-- Line 91: `repo_creations[created_at].append(repo_name)` on the
`defaultdict(list)` (line 91). -/
def add_creation : List (String × List String) → String → String → List (String × List String)
  | [], d, n => [(d, [n])]
  | (k, v) :: rest, d, n =>
    if k = d then (k, v ++ [n]) :: rest else (k, v) :: add_creation rest d n

/-- Lines 84-91: track each repository's creation date (when present). -/
def repo_creations_of (repos : List Repo) : List (String × List String) :=
  repos.foldl
    (fun m r => if created_date r ≠ "" then add_creation m (created_date r) r.name else m) []

/-- The whole `aggregate_star_history` (lines 68-137): collect real plus synthetic
events over the star-sorted repositories, then aggregate. -/
def aggregate_star_history (fetch : String → List String) (today : String)
    (repos : List Repo) : List (String × Nat) × List (String × List String) :=
  let sorted_repos := sort_by_stars repos
  let repo_creations := repo_creations_of sorted_repos
  let all_stargazers := sorted_repos.flatMap (collect_one fetch today)
  (aggregate_events all_stargazers repo_creations, repo_creations)

/-! ### Pin-bonus ranking in `generate_readme` (lines 478-507, 625-635) -/

/-- Line 478: `own_repos = [r for r in repos if not r.get('fork', False)]`. -/
def own_repos_of (repos : List Repo) : List Repo := repos.filter (fun r => !r.fork)

/-- Lines 487-493: the ranking score — pinned repositories get the raw
star count plus 6, others the raw star count. -/
def ranking_score (pinned : List String) (r : Repo) : Nat :=
  if r.name ∈ pinned then r.stargazers_count + 6 else r.stargazers_count

/-- Line 501: `sorted(own_repos, key=lambda x: x.get('ranking_score', 0),
reverse=True)` — stable descending sort by ranking score. -/
def sorted_by_ranking (pinned : List String) (own : List Repo) : List Repo :=
  List.insertionSort (fun a b => ranking_score pinned b ≤ ranking_score pinned a) own

/-- Line 504: the first 10 repositories that have a star or are pinned. -/
def top_repos (pinned : List String) (repos : List Repo) : List Repo :=
  ((sorted_by_ranking pinned (own_repos_of repos)).filter
    (fun r => decide (0 < r.stargazers_count) || decide (r.name ∈ pinned))).take 10

/-- Lines 625-635: the `(name, displayed star count)` of each rendered
table row — the displayed count is `repo.get('stargazers_count', 0)`. -/
def repo_table_rows (pinned : List String) (repos : List Repo) : List (String × Nat) :=
  (top_repos pinned repos).map (fun r => (r.name, r.stargazers_count))

/-! ### The label-layout engine of `generate_star_trend_svg` (lines 140-286) -/

/-- SVG canvas constants (lines 146-153, 215-218). -/
def canvas_width : ℚ := 900

def canvas_height : ℚ := 400

def padding_left : ℚ := 60

def padding_right : ℚ := 40

def padding_top : ℚ := 60

def padding_bottom : ℚ := 80

def chart_width : ℚ := canvas_width - padding_left - padding_right

def chart_height : ℚ := canvas_height - padding_top - padding_bottom

def label_line_height : ℕ := 12

def label_padding : ℕ := 4

def max_label_width : ℕ := 220

def min_label_width : ℕ := 80

/-- Line 220: the fixed ordered sequence of vertical offset multipliers. -/
def label_position_offsets : List ℚ :=
  [0, 1, -1, 2, -2, 3, -3, 4, -4, 5, -5, 6, -6, 7, -7, 8, -8]

/-- A label box `(x_min, x_max, y_min, y_max)` in canvas coordinates. -/
structure Box where
  x_min : ℚ
  x_max : ℚ
  y_min : ℚ
  y_max : ℚ
deriving DecidableEq

/-- Lines 222-224: `boxes_overlap` — two boxes overlap unless one is
strictly left of, right of, above, or below the other. -/
def boxes_overlap (box_a box_b : Box) : Bool :=
  !(decide (box_a.x_max < box_b.x_min) || decide (box_a.x_min > box_b.x_max) ||
    decide (box_a.y_max < box_b.y_min) || decide (box_a.y_min > box_b.y_max))

/-- Lines 250 and 261: `max(min_top, min(v, max_top))`. -/
def clamp (min_top max_top v : ℚ) : ℚ := max min_top (min v max_top)

/-- The box a label occupies when its text top is `top` (lines 256, 262):
`(x_min, x_max, top - label_padding, top + label_height + label_padding)`. -/
def mk_label_box (x_min x_max top : ℚ) (label_height : ℕ) : Box :=
  Box.mk x_min x_max (top - (label_padding : ℚ))
    (top + (label_height : ℚ) + (label_padding : ℚ))

/-- Lines 255-266: try the candidate offsets in order; the first candidate
whose (clamped) box overlaps no previously placed box wins; if none is
accepted the initial values `(base_top, base box)` survive the loop. -/
def find_label_position (label_boxes : List Box) (x_min x_max min_top max_top
    base_top step : ℚ) (label_height : ℕ) : List ℚ → ℚ × Box
  | [] => (base_top, mk_label_box x_min x_max base_top label_height)
  | off :: rest =>
    let candidate_top := clamp min_top max_top (base_top + off * step)
    let candidate_box := mk_label_box x_min x_max candidate_top label_height
    if label_boxes.any (fun existing => boxes_overlap candidate_box existing) then
      find_label_position label_boxes x_min x_max min_top max_top base_top step
        label_height rest
    else (candidate_top, candidate_box)

/-- Whether every candidate offset of the search order produces a box that
overlaps some already placed box — the situation in which the loop of
lines 259-266 accepts nothing. -/
def offsets_exhausted (label_boxes : List Box) (x_min x_max min_top max_top
    base_top step : ℚ) (label_height : ℕ) (offs : List ℚ) : Bool :=
  offs.all fun off =>
    label_boxes.any fun existing =>
      boxes_overlap
        (mk_label_box x_min x_max (clamp min_top max_top (base_top + off * step))
          label_height) existing

/-- Line 166: `get_x(index)` — x is affine in the point's index. -/
def get_x (n i : Nat) : ℚ := padding_left + ((i : ℚ) / ((n : ℚ) - 1)) * chart_width

/-- Lines 168-169: `get_y(star_count)` with `min_stars = 0`. -/
def get_y (star_range : ℚ) (star_count : Nat) : ℚ :=
  padding_top + chart_height - ((star_count : ℚ) / star_range) * chart_height

/-- Lines 235-236: one line per created repository plus the trailing date
line. -/
def label_lines_of (repos : List String) (date : String) : List String :=
  repos.map (fun r => "📦 " ++ r) ++ [date]

/-- Line 237: `label_height = label_line_height * len(label_lines)`. -/
def label_height_of (lines : List String) : ℕ := label_line_height * lines.length

/-- Line 238: `max(len(line) for line in label_lines)`. -/
def max_line_length_of (lines : List String) : ℕ :=
  (lines.map String.length).foldr max 0

/-- Line 239: `min(max_label_width, max(min_label_width,
max_line_length * 6))`. -/
def label_width_of (lines : List String) : ℕ :=
  min max_label_width (max min_label_width (max_line_length_of lines * 6))

/-- Everything the code computes for one annotated (creation-date) point
(lines 227-268). -/
structure PlacedLabel where
  x : ℚ
  y : ℚ
  date : String
  repos : List String
  label_width : ℕ
  label_height : ℕ
  place_right : Bool
  label_x : ℚ
  text_anchor : String
  x_min : ℚ
  x_max : ℚ
  base_top : ℚ
  label_top : ℚ
  label_box : Box
deriving DecidableEq

/-- Line 248: `min_top = padding_top + label_padding`. -/
def min_top_const : ℚ := padding_top + (label_padding : ℚ)

/-- Line 249: `max_top = padding_top + chart_height - label_height -
label_padding`. -/
def max_top_of (label_height : ℕ) : ℚ :=
  padding_top + chart_height - (label_height : ℚ) - (label_padding : ℚ)

/-- Line 253: `step = label_height + label_padding * 2`. -/
def step_of (label_height : ℕ) : ℚ := (label_height : ℚ) + (label_padding : ℚ) * 2

/-- Lines 228-266 for one annotated point: label geometry, horizontal side
choice, clamped vertical base, and the offset search against the already
placed boxes. -/
def place_one (label_boxes : List Box) (n : Nat) (star_range : ℚ) (i : Nat)
    (date : String) (star_count : Nat) (repos : List String) : PlacedLabel :=
  let x := get_x n i
  let y := get_y star_range star_count
  let label_lines := label_lines_of repos date
  let label_height := label_height_of label_lines
  let label_width := label_width_of label_lines
  let place_right : Bool := decide (x < canvas_width - ((label_width : ℚ) + padding_right))
  let label_x := if place_right then x + 12 else x - 12
  let text_anchor := if place_right then "start" else "end"
  let x_min := if place_right then label_x else label_x - (label_width : ℚ)
  let x_max := if place_right then label_x + (label_width : ℚ) else label_x
  let base_top := clamp min_top_const (max_top_of label_height) (y - (label_height : ℚ) / 2)
  let found := find_label_position label_boxes x_min x_max min_top_const
    (max_top_of label_height) base_top (step_of label_height) label_height
    label_position_offsets
  { x := x, y := y, date := date, repos := repos, label_width := label_width,
    label_height := label_height, place_right := place_right, label_x := label_x,
    text_anchor := text_anchor, x_min := x_min, x_max := x_max, base_top := base_top,
    label_top := found.1, label_box := found.2 }

/-- Lines 232-234: `date in repo_creations` plus `repo_creations[date]`. -/
def find_creations : List (String × List String) → String → Option (List String)
  | [], _ => none
  | (k, v) :: rest, d => if k = d then some v else find_creations rest d

/-- The loop of lines 227-286 restricted to what it places: each
creation-date point appends its label box to the accumulator (the
accumulator is kept newest-first; `layout_labels` reverses it). -/
def layout_go (creations : List (String × List String)) (n : Nat) (star_range : ℚ) :
    List (Nat × (String × Nat)) → List PlacedLabel → List PlacedLabel
  | [], placed => placed
  | (i, (date, star_count)) :: rest, placed =>
    match find_creations creations date with
    | none => layout_go creations n star_range rest placed
    | some repos =>
      layout_go creations n star_range rest
        (place_one (placed.map (fun pl => pl.label_box)) n star_range i date
          star_count repos :: placed)

/-- The label-layout engine of `generate_star_trend_svg`: the sequence of
placed labels, in placement order (lines 155-286; `max_stars`,
`star_range` as in lines 159-161). -/
def layout_labels (history : List (String × Nat))
    (creations : List (String × List String)) : List PlacedLabel :=
  let n := history.length
  let max_stars := (history.map Prod.snd).foldr max 0
  let star_range : ℚ := if 0 < max_stars then (max_stars : ℚ) else 1
  (layout_go creations n star_range history.enum []).reverse

/-- The label's stored vertical data is exactly what the offset search
returns against the given collection of previously placed boxes. -/
def placed_consistent (prior : List Box) (pl : PlacedLabel) : Prop :=
  pl.label_top =
    (find_label_position prior pl.x_min pl.x_max min_top_const
      (max_top_of pl.label_height) pl.base_top (step_of pl.label_height)
      pl.label_height label_position_offsets).1 ∧
  pl.label_box =
    (find_label_position prior pl.x_min pl.x_max min_top_const
      (max_top_of pl.label_height) pl.base_top (step_of pl.label_height)
      pl.label_height label_position_offsets).2

/-- Every decomposition of the (newest-first) accumulator satisfies the
consistency of its label against the boxes placed before it. -/
def go_wf (placed : List PlacedLabel) : Prop :=
  ∀ pre pl suf, placed = pre ++ pl :: suf →
    placed_consistent (suf.map (fun q => q.label_box)) pl

/-! ### Concrete inputs used by the witnesses and counterexamples -/

/-- A two-point history whose single creation label sits at the last
point. -/
def tiny_history : List (String × Nat) := [("2024-01-01", 1), ("2024-01-02", 2)]

def tiny_creations : List (String × List String) := [("2024-01-02", ["r"])]

/-- The label the layout engine places for `tiny_history`. -/
def tiny_pl : PlacedLabel :=
  { x := 860, y := 60, date := "2024-01-02", repos := ["r"], label_width := 80,
    label_height := 24, place_right := false, label_x := 848, text_anchor := "end",
    x_min := 768, x_max := 848, base_top := 64, label_top := 64,
    label_box := { x_min := 768, x_max := 848, y_min := 60, y_max := 92 } }

/-- A five-point history with a dense cluster: the first creation date has
25 repositories (a label 312 tall and 210 wide, covering the chart
vertically), the second is the adjacent point, whose label overlaps it at
every candidate offset. -/
def dense_history : List (String × Nat) :=
  [("2024-01-01", 1), ("2024-01-02", 2), ("2024-01-03", 3), ("2024-01-04", 4),
    ("2024-01-05", 5)]

def dense_names : List String :=
  "a-very-long-repository-name-00000" :: List.replicate 24 "r"

def dense_creations : List (String × List String) :=
  [("2024-01-01", dense_names), ("2024-01-02", ["r2"])]

/-- The first label placed on `dense_history`. -/
def dense_pl1 : PlacedLabel :=
  { x := 60, y := 268, date := "2024-01-01", repos := dense_names, label_width := 210,
    label_height := 312, place_right := true, label_x := 72, text_anchor := "start",
    x_min := 72, x_max := 282, base_top := 64, label_top := 64,
    label_box := { x_min := 72, x_max := 282, y_min := 60, y_max := 380 } }

/-- The second label placed on `dense_history`: every candidate offset
overlaps `dense_pl1.label_box`, and the label stays at its base position
204 (not at the last candidate offset, which would clamp to 64). -/
def dense_pl2 : PlacedLabel :=
  { x := 260, y := 216, date := "2024-01-02", repos := ["r2"], label_width := 80,
    label_height := 24, place_right := true, label_x := 272, text_anchor := "start",
    x_min := 272, x_max := 352, base_top := 204, label_top := 204,
    label_box := { x_min := 272, x_max := 352, y_min := 200, y_max := 232 } }

/-- A five-point history whose creation label at x = 660 is placed to the
right even though its right edge (864) exceeds the canvas width minus the
right padding (860). -/
def right_history : List (String × Nat) :=
  [("2024-01-01", 1), ("2024-01-02", 2), ("2024-01-03", 3), ("2024-01-04", 4),
    ("2024-01-05", 5)]

def right_creations : List (String × List String) :=
  [("2024-01-04", ["a-repository-name-of-30-chars0"])]

/-- The label the layout engine places for `right_history`. -/
def right_pl : PlacedLabel :=
  { x := 660, y := 112, date := "2024-01-04", repos := ["a-repository-name-of-30-chars0"],
    label_width := 192, label_height := 24, place_right := true, label_x := 672,
    text_anchor := "start", x_min := 672, x_max := 864, base_top := 100,
    label_top := 100,
    label_box := { x_min := 672, x_max := 864, y_min := 96, y_max := 128 } }

/-! ### Order properties of the date comparison -/

theorem chars_le_refl (l : List Char) : chars_le l l = true := by
  induction l with
  | nil => rfl
  | cons a as ih => simp [chars_le, lt_irrefl, ih]

theorem chars_le_total : ∀ a b : List Char, chars_le a b = true ∨ chars_le b a = true
  | [], _ => Or.inl rfl
  | _ :: _, [] => Or.inr rfl
  | x :: xs, y :: ys => by
    rcases lt_trichotomy x y with h | h | h
    · exact Or.inl (by simp [chars_le, h])
    · subst h
      rcases chars_le_total xs ys with h' | h'
      · exact Or.inl (by simp [chars_le, lt_irrefl, h'])
      · exact Or.inr (by simp [chars_le, lt_irrefl, h'])
    · exact Or.inr (by simp [chars_le, h])

theorem chars_le_trans : ∀ a b c : List Char,
    chars_le a b = true → chars_le b c = true → chars_le a c = true
  | [], _, _, _, _ => rfl
  | _ :: _, [], _, h1, _ => by simp [chars_le] at h1
  | _ :: _, _ :: _, [], _, h2 => by simp [chars_le] at h2
  | x :: xs, y :: ys, z :: zs, h1, h2 => by
    simp only [chars_le] at h1 h2 ⊢
    by_cases hxy : x < y
    · by_cases hyz : y < z
      · simp [lt_trans hxy hyz]
      · simp only [if_neg hyz] at h2
        by_cases hyz2 : y = z
        · subst hyz2; simp [hxy]
        · simp [hyz2] at h2
    · simp only [if_neg hxy] at h1
      by_cases hxy2 : x = y
      · subst hxy2
        simp only [if_pos rfl] at h1
        by_cases hxz : x < z
        · simp [hxz]
        · simp only [if_neg hxz] at h2 ⊢
          by_cases hxz2 : x = z
          · simp only [if_pos hxz2] at h2 ⊢
            subst hxz2
            exact chars_le_trans xs ys zs h1 h2
          · simp [hxz2] at h2
      · simp [hxy2] at h1

theorem chars_le_antisymm : ∀ a b : List Char,
    chars_le a b = true → chars_le b a = true → a = b
  | [], [], _, _ => rfl
  | [], _ :: _, _, h2 => by simp [chars_le] at h2
  | _ :: _, [], h1, _ => by simp [chars_le] at h1
  | x :: xs, y :: ys, h1, h2 => by
    simp only [chars_le] at h1 h2
    by_cases hxy : x < y
    · have : ¬y < x := not_lt.mpr hxy.le
      simp only [if_neg this] at h2
      by_cases hyx2 : y = x
      · exact absurd hyx2.symm (ne_of_lt hxy)
      · simp [hyx2] at h2
    · simp only [if_neg hxy] at h1
      by_cases hxy2 : x = y
      · subst hxy2
        simp only [if_pos rfl] at h1
        simp only [lt_irrefl, if_neg (lt_irrefl x), if_pos rfl] at h2
        exact congrArg (x :: ·) (chars_le_antisymm xs ys h1 h2)
      · simp [hxy2] at h1

theorem date_le_refl (a : String) : date_le a a = true := chars_le_refl a.data

theorem date_le_total (a b : String) : date_le a b = true ∨ date_le b a = true :=
  chars_le_total a.data b.data

theorem date_le_trans {a b c : String} (h1 : date_le a b = true)
    (h2 : date_le b c = true) : date_le a c = true :=
  chars_le_trans a.data b.data c.data h1 h2

theorem date_le_antisymm {a b : String} (h1 : date_le a b = true)
    (h2 : date_le b a = true) : a = b :=
  String.ext (chars_le_antisymm a.data b.data h1 h2)

instance : IsTotal String (fun a b => date_le a b = true) := ⟨date_le_total⟩

instance : IsTrans String (fun a b => date_le a b = true) :=
  ⟨fun _ _ _ => date_le_trans⟩

/-- Two duplicate-free lists that are sorted for `date_le` and have the
same members are equal. -/
theorem sorted_nodup_mem_eq : ∀ l₁ l₂ : List String,
    l₁.Pairwise (fun a b => date_le a b = true) →
    l₂.Pairwise (fun a b => date_le a b = true) →
    l₁.Nodup → l₂.Nodup → (∀ x, x ∈ l₁ ↔ x ∈ l₂) → l₁ = l₂
  | [], [], _, _, _, _, _ => rfl
  | [], y :: ys, _, _, _, _, hmem => by
    exact absurd ((hmem y).mpr (List.mem_cons_self y ys)) (List.not_mem_nil y)
  | x :: xs, [], _, _, _, _, hmem => by
    exact absurd ((hmem x).mp (List.mem_cons_self x xs)) (List.not_mem_nil x)
  | x :: xs, y :: ys, s₁, s₂, n₁, n₂, hmem => by
    rw [List.pairwise_cons] at s₁ s₂
    rw [List.nodup_cons] at n₁ n₂
    have hxy : x = y := by
      have hx : x ∈ y :: ys := (hmem x).mp (List.mem_cons_self x xs)
      have hy : y ∈ x :: xs := (hmem y).mpr (List.mem_cons_self y ys)
      rcases List.mem_cons.mp hx with h | h
      · exact h
      · rcases List.mem_cons.mp hy with h' | h'
        · exact h'.symm
        · exact date_le_antisymm (s₁.1 y h') (s₂.1 x h)
    subst hxy
    have htails : ∀ z, z ∈ xs ↔ z ∈ ys := by
      intro z
      constructor
      · intro hz
        have : z ∈ x :: ys := (hmem z).mp (List.mem_cons_of_mem x hz)
        rcases List.mem_cons.mp this with h | h
        · exact absurd (h ▸ hz) n₁.1
        · exact h
      · intro hz
        have : z ∈ x :: xs := (hmem z).mpr (List.mem_cons_of_mem x hz)
        rcases List.mem_cons.mp this with h | h
        · exact absurd (h ▸ hz) n₂.1
        · exact h
    exact congrArg (x :: ·)
      (sorted_nodup_mem_eq xs ys s₁.2 s₂.2 n₁.2 n₂.2 htails)

/-! ### Properties of the daily-count dictionary -/

theorem has_date_iff_mem (m : List (String × Nat)) (d : String) :
    has_date m d = true ↔ d ∈ m.map Prod.fst := by
  induction m with
  | nil => simp [has_date]
  | cons kv rest ih =>
    obtain ⟨k, v⟩ := kv
    by_cases h : k = d
    · subst h; simp [has_date]
    · simp [has_date, h, ih, Ne.symm h]

theorem lookup_count_bump (m : List (String × Nat)) (d d' : String) :
    lookup_count (bump_date m d) d' =
      lookup_count m d' + if d' = d then 1 else 0 := by
  induction m with
  | nil =>
    by_cases h : d' = d
    · subst h; simp [bump_date, lookup_count]
    · have h2 : ¬d = d' := fun h' => h h'.symm
      simp [bump_date, lookup_count, h, h2]
  | cons kv rest ih =>
    obtain ⟨k, v⟩ := kv
    by_cases hk : k = d
    · subst hk
      by_cases h : d' = k
      · subst h; simp [bump_date, lookup_count]
      · have h2 : ¬k = d' := fun h' => h h'.symm
        simp [bump_date, lookup_count, h, h2]
    · by_cases h : k = d'
      · subst h
        simp [bump_date, lookup_count, hk, fun h' : k = d => hk h']
      · simp [bump_date, lookup_count, hk, h, ih]

theorem mem_keys_bump (m : List (String × Nat)) (d x : String) :
    x ∈ (bump_date m d).map Prod.fst ↔ x ∈ m.map Prod.fst ∨ x = d := by
  induction m with
  | nil => simp [bump_date]
  | cons kv rest ih =>
    obtain ⟨k, v⟩ := kv
    by_cases hk : k = d
    · subst hk; simp [bump_date]; tauto
    · simp [bump_date, hk, ih]; tauto

theorem nodup_keys_bump (m : List (String × Nat)) (d : String)
    (h : (m.map Prod.fst).Nodup) : ((bump_date m d).map Prod.fst).Nodup := by
  induction m with
  | nil => simp [bump_date]
  | cons kv rest ih =>
    obtain ⟨k, v⟩ := kv
    simp only [List.map_cons, List.nodup_cons] at h
    by_cases hk : k = d
    · subst hk
      simpa [bump_date] using h
    · simp only [bump_date, if_neg hk, List.map_cons, List.nodup_cons]
      refine ⟨?_, ih h.2⟩
      rw [mem_keys_bump]
      rintro (hmem | rfl)
      · exact h.1 hmem
      · exact hk rfl

theorem lookup_count_append_zero (m : List (String × Nat)) (d d' : String) :
    lookup_count (m ++ [(d, 0)]) d' = lookup_count m d' := by
  induction m with
  | nil => simp [lookup_count]
  | cons kv rest ih =>
    obtain ⟨k, v⟩ := kv
    by_cases h : k = d'
    · simp [lookup_count, h]
    · simp [lookup_count, h, ih]

theorem lookup_count_ensure (m : List (String × Nat)) (d d' : String) :
    lookup_count (ensure_date m d) d' = lookup_count m d' := by
  unfold ensure_date
  by_cases h : has_date m d = true
  · simp [h]
  · simp only [Bool.not_eq_true] at h
    simp [h, lookup_count_append_zero]

theorem mem_keys_ensure (m : List (String × Nat)) (d x : String) :
    x ∈ (ensure_date m d).map Prod.fst ↔ x ∈ m.map Prod.fst ∨ x = d := by
  unfold ensure_date
  by_cases h : has_date m d = true
  · simp only [h, if_true]
    constructor
    · exact Or.inl
    · rintro (hm | rfl)
      · exact hm
      · exact (has_date_iff_mem m x).mp h
  · simp only [Bool.not_eq_true] at h
    simp [h]

theorem nodup_keys_ensure (m : List (String × Nat)) (d : String)
    (h : (m.map Prod.fst).Nodup) : ((ensure_date m d).map Prod.fst).Nodup := by
  unfold ensure_date
  by_cases hh : has_date m d = true
  · simpa [hh] using h
  · simp only [Bool.not_eq_true] at hh
    have hd : d ∉ m.map Prod.fst := fun hm =>
      by simp [(has_date_iff_mem m d).mpr hm] at hh
    simp [hh, List.nodup_append, h, hd]

theorem snd_sum_bump (m : List (String × Nat)) (d : String) :
    ((bump_date m d).map Prod.snd).sum = (m.map Prod.snd).sum + 1 := by
  induction m with
  | nil => simp [bump_date]
  | cons kv rest ih =>
    obtain ⟨k, v⟩ := kv
    by_cases hk : k = d
    · subst hk; simp [bump_date]; ring
    · simp [bump_date, hk, ih]; ring

theorem snd_sum_ensure (m : List (String × Nat)) (d : String) :
    ((ensure_date m d).map Prod.snd).sum = (m.map Prod.snd).sum := by
  unfold ensure_date
  by_cases h : has_date m d = true
  · simp [h]
  · simp only [Bool.not_eq_true] at h
    simp [h]

/-! Folding the event list into the dictionary -/

theorem lookup_count_fold_bump (events : List StarEvent) (d : String) :
    ∀ m, lookup_count (events.foldl (fun m e => bump_date m (event_date e)) m) d =
      lookup_count m d + events.countP (fun e => decide (event_date e = d)) := by
  induction events with
  | nil => intro m; simp
  | cons e es ih =>
    intro m
    rw [List.foldl_cons, ih, lookup_count_bump, List.countP_cons]
    by_cases h : event_date e = d
    · simp [h]; ring
    · have h2 : ¬d = event_date e := fun h' => h h'.symm
      simp [h, h2]

theorem mem_keys_fold_bump (events : List StarEvent) (x : String) :
    ∀ m, (x ∈ (events.foldl (fun m e => bump_date m (event_date e)) m).map Prod.fst ↔
      x ∈ m.map Prod.fst ∨ ∃ e ∈ events, event_date e = x) := by
  induction events with
  | nil => intro m; simp
  | cons e es ih =>
    intro m
    rw [List.foldl_cons, ih, mem_keys_bump]
    simp only [List.mem_cons]
    constructor
    · rintro ((hm | he) | ⟨e', he', hx⟩)
      · exact Or.inl hm
      · exact Or.inr ⟨e, Or.inl rfl, he.symm⟩
      · exact Or.inr ⟨e', Or.inr he', hx⟩
    · rintro (hm | ⟨e', he', hx⟩)
      · exact Or.inl (Or.inl hm)
      · rcases he' with rfl | he''
        · exact Or.inl (Or.inr hx.symm)
        · exact Or.inr ⟨e', he'', hx⟩

theorem nodup_keys_fold_bump (events : List StarEvent) :
    ∀ m, (m.map Prod.fst).Nodup →
      ((events.foldl (fun m e => bump_date m (event_date e)) m).map Prod.fst).Nodup := by
  induction events with
  | nil => intro m h; simpa using h
  | cons e es ih =>
    intro m h
    exact ih _ (nodup_keys_bump m (event_date e) h)

theorem snd_sum_fold_bump (events : List StarEvent) :
    ∀ m, ((events.foldl (fun m e => bump_date m (event_date e)) m).map Prod.snd).sum =
      (m.map Prod.snd).sum + events.length := by
  induction events with
  | nil => intro m; simp
  | cons e es ih =>
    intro m
    rw [List.foldl_cons, ih, snd_sum_bump, List.length_cons]
    ring

/-! Folding the creation dates into the dictionary -/

theorem lookup_count_fold_ensure (ds : List String) (d : String) :
    ∀ m, lookup_count (ds.foldl ensure_date m) d = lookup_count m d := by
  induction ds with
  | nil => intro m; simp
  | cons c cs ih =>
    intro m
    rw [List.foldl_cons, ih, lookup_count_ensure]

theorem mem_keys_fold_ensure (ds : List String) (x : String) :
    ∀ m, (x ∈ (ds.foldl ensure_date m).map Prod.fst ↔
      x ∈ m.map Prod.fst ∨ x ∈ ds) := by
  induction ds with
  | nil => intro m; simp
  | cons c cs ih =>
    intro m
    rw [List.foldl_cons, ih, mem_keys_ensure]
    simp [List.mem_cons]
    tauto

theorem nodup_keys_fold_ensure (ds : List String) :
    ∀ m, (m.map Prod.fst).Nodup → ((ds.foldl ensure_date m).map Prod.fst).Nodup := by
  induction ds with
  | nil => intro m h; simpa using h
  | cons c cs ih =>
    intro m h
    exact ih _ (nodup_keys_ensure m c h)

theorem snd_sum_fold_ensure (ds : List String) :
    ∀ m, ((ds.foldl ensure_date m).map Prod.snd).sum = (m.map Prod.snd).sum := by
  induction ds with
  | nil => intro m; simp
  | cons c cs ih =>
    intro m
    rw [List.foldl_cons, ih, snd_sum_ensure]

/-! The assembled daily dictionary -/

theorem daily_lookup (events : List StarEvent) (creations : List (String × List String))
    (d : String) :
    lookup_count (daily_star_counts events creations) d =
      events.countP (fun e => decide (event_date e = d)) := by
  unfold daily_star_counts
  rw [lookup_count_fold_ensure, lookup_count_fold_bump]
  simp [lookup_count]

theorem daily_keys_mem (events : List StarEvent) (creations : List (String × List String))
    (x : String) :
    x ∈ (daily_star_counts events creations).map Prod.fst ↔
      (∃ e ∈ events, event_date e = x) ∨ x ∈ creations.map Prod.fst := by
  unfold daily_star_counts
  rw [mem_keys_fold_ensure, mem_keys_fold_bump]
  simp

theorem daily_keys_nodup (events : List StarEvent)
    (creations : List (String × List String)) :
    ((daily_star_counts events creations).map Prod.fst).Nodup := by
  unfold daily_star_counts
  exact nodup_keys_fold_ensure _ _ (nodup_keys_fold_bump _ _ (by simp))

theorem daily_snd_sum (events : List StarEvent)
    (creations : List (String × List String)) :
    ((daily_star_counts events creations).map Prod.snd).sum = events.length := by
  unfold daily_star_counts
  rw [snd_sum_fold_ensure, snd_sum_fold_bump]
  simp

/-! ### The sorted date list and the prefix sum -/

theorem sorted_dates_pairwise (m : List (String × Nat)) :
    (sorted_dates m).Pairwise (fun a b => date_le a b = true) :=
  List.sorted_insertionSort (fun a b => date_le a b = true) (m.map Prod.fst)

theorem sorted_dates_perm (m : List (String × Nat)) :
    (sorted_dates m).Perm (m.map Prod.fst) :=
  List.perm_insertionSort (fun a b => date_le a b = true) (m.map Prod.fst)

theorem sorted_dates_mem (m : List (String × Nat)) (d : String) :
    d ∈ sorted_dates m ↔ d ∈ m.map Prod.fst :=
  (sorted_dates_perm m).mem_iff

theorem sorted_dates_nodup (m : List (String × Nat))
    (h : (m.map Prod.fst).Nodup) : (sorted_dates m).Nodup :=
  (sorted_dates_perm m).nodup_iff.mpr h

theorem cumulate_congr (m₁ m₂ : List (String × Nat))
    (h : ∀ d, lookup_count m₁ d = lookup_count m₂ d) :
    ∀ (ds : List String) (total : Nat), cumulate m₁ total ds = cumulate m₂ total ds := by
  intro ds
  induction ds with
  | nil => intro total; rfl
  | cons d rest ih =>
    intro total
    simp [cumulate, h d, ih]

theorem getLast_cons_of_ne_nil (a : String × Nat) :
    ∀ l : List (String × Nat), l ≠ [] → (a :: l).getLast? = l.getLast?
  | [], h => absurd rfl h
  | _ :: _, _ => List.getLast?_cons_cons

theorem cumulate_getLast : ∀ (ds : List String) (m : List (String × Nat)) (total : Nat),
    ds ≠ [] → ∃ d, (cumulate m total ds).getLast? =
      some (d, total + (ds.map (lookup_count m)).sum)
  | [], _, _, h => absurd rfl h
  | [d], m, total, _ => ⟨d, by simp [cumulate]⟩
  | d :: d' :: ds, m, total, _ => by
    obtain ⟨dl, h⟩ := cumulate_getLast (d' :: ds) m (total + lookup_count m d)
      (List.cons_ne_nil d' ds)
    refine ⟨dl, ?_⟩
    show ((d, total + lookup_count m d) ::
      cumulate m (total + lookup_count m d) (d' :: ds)).getLast? = _
    rw [getLast_cons_of_ne_nil _ _ (by rw [cumulate]; exact List.cons_ne_nil _ _),
      List.map_cons, List.sum_cons, ← Nat.add_assoc]
    exact h

theorem cumulate_mem : ∀ (ds : List String) (m : List (String × Nat)) (total : Nat)
    (d : String), ds.Pairwise (fun a b => date_le a b = true) → ds.Nodup → d ∈ ds →
    (d, total + ((ds.filter (fun x => date_le x d)).map (lookup_count m)).sum) ∈
      cumulate m total ds
  | [], _, _, _, _, _, hd => absurd hd (List.not_mem_nil _)
  | a :: rest, m, total, d, hp, hn, hd => by
    rw [List.pairwise_cons] at hp
    rw [List.nodup_cons] at hn
    rcases List.mem_cons.mp hd with rfl | hd'
    · have hrest : rest.filter (fun x => date_le x d) = [] := by
        rw [List.filter_eq_nil_iff]
        intro b hb hba
        exact hn.1 (date_le_antisymm hba (hp.1 b hb) ▸ hb)
      rw [List.filter_cons_of_pos (by simp [date_le_refl]), hrest]
      simp [cumulate]
    · have hstep := cumulate_mem rest m (total + lookup_count m d)
        d hp.2 hn.2 hd'
      rw [List.filter_cons_of_pos (by simp [hp.1 d hd'])]
      rw [List.map_cons, List.sum_cons]
      refine List.mem_cons_of_mem _ ?_
      have : total + (lookup_count m a + ((rest.filter (fun x => date_le x d)).map
          (lookup_count m)).sum) = total + lookup_count m a +
          ((rest.filter (fun x => date_le x d)).map (lookup_count m)).sum := by ring
      rw [this]
      exact cumulate_mem rest m (total + lookup_count m a) d hp.2 hn.2 hd'

/-! ### Counting events across the date keys -/

theorem sum_map_zero_nat (l : List String) : (l.map (fun _ => (0 : Nat))).sum = 0 := by
  induction l with
  | nil => rfl
  | cons a t ih => simp [ih]

theorem sum_map_add_nat (l : List String) (f g : String → Nat) :
    (l.map (fun x => f x + g x)).sum = (l.map f).sum + (l.map g).sum := by
  induction l with
  | nil => rfl
  | cons a t ih => simp [ih]; ring

theorem sum_map_indicator (x : String) : ∀ l : List String, l.Nodup →
    (l.map (fun d => if x = d then 1 else 0)).sum = if x ∈ l then 1 else 0
  | [], _ => by simp
  | a :: t, hn => by
    rw [List.nodup_cons] at hn
    by_cases hxa : x = a
    · subst hxa
      have hxt : x ∉ t := hn.1
      simp [sum_map_indicator x t hn.2, hxt]
    · simp only [List.map_cons, List.sum_cons, if_neg hxa, List.mem_cons]
      rw [sum_map_indicator x t hn.2]
      simp [hxa]

theorem sum_counts_filter (K : List String) (p : String → Bool)
    (hK : K.Nodup) :
    ∀ events : List StarEvent, (∀ e ∈ events, event_date e ∈ K) →
    ((K.filter p).map
        (fun d => events.countP (fun e => decide (event_date e = d)))).sum =
      events.countP (fun e => p (event_date e)) := by
  intro events
  induction events with
  | nil => intro _; simp [sum_map_zero_nat]
  | cons e es ih =>
    intro hcov
    have hcov' : ∀ e' ∈ es, event_date e' ∈ K := fun e' he' =>
      hcov e' (List.mem_cons_of_mem e he')
    have heK : event_date e ∈ K := hcov e (List.mem_cons_self e es)
    have hfun : (fun d => (e :: es).countP (fun e' => decide (event_date e' = d))) =
        (fun d => es.countP (fun e' => decide (event_date e' = d)) +
          if event_date e = d then 1 else 0) := by
      funext d
      rw [List.countP_cons]
      simp
    rw [hfun, sum_map_add_nat, ih hcov',
      sum_map_indicator (event_date e) (K.filter p) (hK.filter p), List.countP_cons]
    congr 1
    by_cases hp : p (event_date e) = true
    · simp [List.mem_filter, heK, hp]
    · simp [List.mem_filter, hp]

/-! ### Assembled facts about `aggregate_events` -/

theorem events_cover_sorted (events : List StarEvent)
    (creations : List (String × List String)) :
    ∀ e ∈ events, event_date e ∈ sorted_dates (daily_star_counts events creations) := by
  intro e he
  rw [sorted_dates_mem, daily_keys_mem]
  exact Or.inl ⟨e, he, rfl⟩

theorem aggregate_events_of_ne_nil (events : List StarEvent)
    (creations : List (String × List String)) (hne : events ≠ []) :
    aggregate_events events creations =
      cumulate (daily_star_counts events creations) 0
        (sorted_dates (daily_star_counts events creations)) := by
  unfold aggregate_events
  rw [if_neg (by simp [List.isEmpty_iff, hne])]

/-- The point that the series holds for a date `d` of the daily
dictionary: its running total is the number of events dated `≤ d`. -/
theorem aggregate_events_mem_point (events : List StarEvent)
    (creations : List (String × List String)) (d : String) (hne : events ≠ [])
    (hd : d ∈ (daily_star_counts events creations).map Prod.fst) :
    (d, events.countP (fun e => date_le (event_date e) d)) ∈
      aggregate_events events creations := by
  rw [aggregate_events_of_ne_nil events creations hne]
  have hnodup := sorted_dates_nodup _ (daily_keys_nodup events creations)
  have hmem := cumulate_mem (sorted_dates (daily_star_counts events creations))
    (daily_star_counts events creations) 0 d (sorted_dates_pairwise _) hnodup
    ((sorted_dates_mem _ d).mpr hd)
  rw [List.map_congr_left
    (fun x _ => daily_lookup events creations x), sum_counts_filter _ _ hnodup events
    (events_cover_sorted events creations), Nat.zero_add] at hmem
  exact hmem

/-- The last point of the nonempty series carries the total event count. -/
theorem aggregate_events_getLast (events : List StarEvent)
    (creations : List (String × List String)) (hne : events ≠ []) :
    ∃ d, (aggregate_events events creations).getLast? = some (d, events.length) := by
  rw [aggregate_events_of_ne_nil events creations hne]
  obtain ⟨e₀, he₀⟩ := List.exists_mem_of_ne_nil events hne
  have hsne : sorted_dates (daily_star_counts events creations) ≠ [] :=
    List.ne_nil_of_mem (events_cover_sorted events creations e₀ he₀)
  obtain ⟨dl, h⟩ := cumulate_getLast _ (daily_star_counts events creations) 0 hsne
  refine ⟨dl, ?_⟩
  rw [h]
  have hnodup := sorted_dates_nodup _ (daily_keys_nodup events creations)
  have hsum := sum_counts_filter (sorted_dates (daily_star_counts events creations))
    (fun _ => true) hnodup events (events_cover_sorted events creations)
  rw [List.filter_true] at hsum
  simp only [List.countP_true] at hsum
  rw [List.map_congr_left (fun x _ => daily_lookup events creations x), hsum,
    Nat.zero_add]

/-- The aggregation only depends on the multiset of events. -/
theorem aggregate_events_perm (events events' : List StarEvent)
    (creations : List (String × List String)) (hp : events.Perm events') :
    aggregate_events events creations = aggregate_events events' creations := by
  by_cases hne : events = []
  · subst hne
    rw [hp.symm.eq_nil]
  · have hne' : events' ≠ [] := fun h => hne (by rw [h] at hp; exact hp.eq_nil)
    rw [aggregate_events_of_ne_nil events creations hne,
      aggregate_events_of_ne_nil events' creations hne']
    have hlook : ∀ x, lookup_count (daily_star_counts events creations) x =
        lookup_count (daily_star_counts events' creations) x := by
      intro x
      rw [daily_lookup, daily_lookup, hp.countP_eq]
    have hsorted : sorted_dates (daily_star_counts events creations) =
        sorted_dates (daily_star_counts events' creations) := by
      apply sorted_nodup_mem_eq _ _ (sorted_dates_pairwise _) (sorted_dates_pairwise _)
        (sorted_dates_nodup _ (daily_keys_nodup _ _))
        (sorted_dates_nodup _ (daily_keys_nodup _ _))
      intro x
      rw [sorted_dates_mem, sorted_dates_mem, daily_keys_mem, daily_keys_mem]
      constructor
      · rintro (⟨e, he, hx⟩ | hc)
        · exact Or.inl ⟨e, hp.mem_iff.mp he, hx⟩
        · exact Or.inr hc
      · rintro (⟨e, he, hx⟩ | hc)
        · exact Or.inl ⟨e, hp.mem_iff.mpr he, hx⟩
        · exact Or.inr hc
    rw [hsorted, cumulate_congr _ _ hlook]

/-! ### Claims C2, C3, C4 -/

/-- C2 (corrected): provided the event list is nonempty, every date key of
the creation index appears as the date of a point of the cumulative
series; its total is the number of events dated at or before it, so when
no star event falls on that date the total is exactly the running total
carried from the strictly earlier dates.  (The original claim, quantified
over every input, fails on an empty event list — see the
counterexample.) -/
theorem claim_C2_creation_dates_plotted (events : List StarEvent)
    (creations : List (String × List String)) (d : String) (hne : events ≠ [])
    (hd : d ∈ creations.map Prod.fst) :
    ∃ t, (d, t) ∈ aggregate_events events creations ∧
      t = events.countP (fun e => date_le (event_date e) d) ∧
      ((∀ e ∈ events, event_date e ≠ d) →
        t = events.countP
          (fun e => date_le (event_date e) d && !(decide (event_date e = d)))) := by
  refine ⟨events.countP (fun e => date_le (event_date e) d), ?_, rfl, ?_⟩
  · exact aggregate_events_mem_point events creations d hne
      ((daily_keys_mem events creations d).mpr (Or.inr hd))
  · intro hnone
    apply List.countP_congr
    intro e he
    have : decide (event_date e = d) = false := by simp [hnone e he]
    simp [this]

/-- C2, the counterexample to the original universally quantified claim:
with no events at all but a creation date present, the aggregator returns
the empty series (lines 109-111), so the creation date has no point. -/
theorem claim_C2_counterexample :
    aggregate_events [] [("2024-01-01", ["r"])] = [] ∧
      "2024-01-01" ∈ ([("2024-01-01", ["r"])].map Prod.fst) ∧
      ¬∃ t, ("2024-01-01", t) ∈ aggregate_events [] [("2024-01-01", ["r"])] := by
  refine ⟨rfl, by decide, ?_⟩
  rintro ⟨t, ht⟩
  exact List.not_mem_nil _ ht

theorem claim_C2_witness :
    ∃ t, ("2024-01-03", t) ∈
        aggregate_events [StarEvent.mk "2024-01-02T10:00:00Z" "r"]
          [("2024-01-03", ["r"])] ∧
      t = [StarEvent.mk "2024-01-02T10:00:00Z" "r"].countP
        (fun e => date_le (event_date e) "2024-01-03") ∧
      ((∀ e ∈ [StarEvent.mk "2024-01-02T10:00:00Z" "r"],
          event_date e ≠ "2024-01-03") →
        t = [StarEvent.mk "2024-01-02T10:00:00Z" "r"].countP
          (fun e => date_le (event_date e) "2024-01-03" &&
            !(decide (event_date e = "2024-01-03")))) :=
  claim_C2_creation_dates_plotted
    [StarEvent.mk "2024-01-02T10:00:00Z" "r"] [("2024-01-03", ["r"])]
    "2024-01-03" (by decide) (by decide)

/-- C3 (confirmed): the aggregation is independent of the order of the
event list, and for a nonempty event list the total of the last series
point equals the sum of the per-date daily counts, which is the total
number of events. -/
theorem claim_C3_prefix_sum_and_order_independence (events events' : List StarEvent)
    (creations : List (String × List String)) (hp : events.Perm events') :
    aggregate_events events creations = aggregate_events events' creations ∧
    (events ≠ [] → ∃ d, (aggregate_events events creations).getLast? =
        some (d, ((daily_star_counts events creations).map Prod.snd).sum) ∧
      ((daily_star_counts events creations).map Prod.snd).sum = events.length) := by
  refine ⟨aggregate_events_perm events events' creations hp, ?_⟩
  intro hne
  obtain ⟨d, hd⟩ := aggregate_events_getLast events creations hne
  exact ⟨d, by rw [hd, daily_snd_sum], daily_snd_sum events creations⟩

theorem claim_C3_witness :
    (aggregate_events
        [StarEvent.mk "2024-01-02T00:00:00Z" "a", StarEvent.mk "2024-01-01T05:00:00Z" "b"]
        [("2024-01-03", ["c"])] =
      aggregate_events
        [StarEvent.mk "2024-01-01T05:00:00Z" "b", StarEvent.mk "2024-01-02T00:00:00Z" "a"]
        [("2024-01-03", ["c"])]) ∧
    ([StarEvent.mk "2024-01-02T00:00:00Z" "a", StarEvent.mk "2024-01-01T05:00:00Z" "b"] ≠
        ([] : List StarEvent) →
      ∃ d, (aggregate_events
          [StarEvent.mk "2024-01-02T00:00:00Z" "a", StarEvent.mk "2024-01-01T05:00:00Z" "b"]
          [("2024-01-03", ["c"])]).getLast? =
        some (d, ((daily_star_counts
          [StarEvent.mk "2024-01-02T00:00:00Z" "a", StarEvent.mk "2024-01-01T05:00:00Z" "b"]
          [("2024-01-03", ["c"])]).map Prod.snd).sum) ∧
      ((daily_star_counts
          [StarEvent.mk "2024-01-02T00:00:00Z" "a", StarEvent.mk "2024-01-01T05:00:00Z" "b"]
          [("2024-01-03", ["c"])]).map Prod.snd).sum =
        [StarEvent.mk "2024-01-02T00:00:00Z" "a",
          StarEvent.mk "2024-01-01T05:00:00Z" "b"].length) :=
  claim_C3_prefix_sum_and_order_independence _ _ _ (by decide)

/-- C4 (code bug): the aggregator performs no validation of the timestamp
string at all — `date = star['starred_at'][:10]` (line 116) silently
includes a malformed event under the first ten characters of its
timestamp, while the spec requires a loud `MalformedTimestamp` failure.
This theorem evaluates the code at the failing input. -/
theorem claim_C4_malformed_timestamp_included :
    aggregate_events [StarEvent.mk "not-a-date!!" "r"] [] = [("not-a-date", 1)] := by
  decide

/-! ### The collection phase: synthetic backfill (claim C7) -/

theorem collect_one_repo_tag (fetch : String → List String) (today : String)
    (r : Repo) : ∀ e ∈ collect_one fetch today r, e.repo = r.name := by
  intro e he
  unfold collect_one at he
  by_cases h0 : r.stargazers_count = 0
  · simp [h0] at he
  · rw [if_neg h0] at he
    rcases List.mem_append.mp he with hm | hm
    · obtain ⟨ts, _, rfl⟩ := List.mem_map.mp hm
      rfl
    · rw [List.eq_of_mem_replicate hm]

/-- Under the (always true of the real API) assumption that no more star
timestamps are retrieved than the declared count, each repository
contributes its fetched events followed by exactly the shortfall of
synthetic events dated `fallback_date`. -/
theorem collect_one_eq (fetch : String → List String) (today : String) (r : Repo)
    (h : (fetch r.name).length ≤ r.stargazers_count) :
    collect_one fetch today r =
      (fetch r.name).map (fun ts => StarEvent.mk ts r.name) ++
        List.replicate (r.stargazers_count - (fetch r.name).length)
          (StarEvent.mk (fallback_date today r ++ "T00:00:00Z") r.name) := by
  unfold collect_one
  by_cases h0 : r.stargazers_count = 0
  · have hlen : (fetch r.name).length = 0 := Nat.le_zero.mp (h0 ▸ h)
    have hnil : fetch r.name = [] := List.length_eq_zero.mp hlen
    simp [h0, hnil]
  · rw [if_neg h0]
    simp

theorem collect_one_length (fetch : String → List String) (today : String) (r : Repo)
    (h : (fetch r.name).length ≤ r.stargazers_count) :
    (collect_one fetch today r).length = r.stargazers_count := by
  rw [collect_one_eq fetch today r h]
  simp [Nat.add_sub_cancel' h]

theorem flatMap_filter_single (fetch : String → List String) (today : String) :
    ∀ (rs : List Repo) (r : Repo), (rs.map Repo.name).Nodup → r ∈ rs →
    (rs.flatMap (collect_one fetch today)).filter
        (fun e => decide (e.repo = r.name)) = collect_one fetch today r := by
  intro rs
  induction rs with
  | nil => intro r _ hr; exact absurd hr (List.not_mem_nil r)
  | cons r' rs' ih =>
    intro r hnodup hr
    rw [List.map_cons, List.nodup_cons] at hnodup
    rw [List.flatMap_cons, List.filter_append]
    rcases List.mem_cons.mp hr with rfl | hr'
    · have hblock : (collect_one fetch today r).filter
          (fun e => decide (e.repo = r.name)) = collect_one fetch today r := by
        rw [List.filter_eq_self]
        intro e he
        simp [collect_one_repo_tag fetch today r e he]
      have hrest : (rs'.flatMap (collect_one fetch today)).filter
          (fun e => decide (e.repo = r.name)) = [] := by
        rw [List.filter_eq_nil_iff]
        intro e he
        obtain ⟨r'', hr'', he''⟩ := List.mem_flatMap.mp he
        rw [collect_one_repo_tag fetch today r'' e he'']
        simp only [decide_eq_true_eq]
        intro hname
        exact hnodup.1 (hname ▸ List.mem_map_of_mem Repo.name hr'')
      rw [hblock, hrest, List.append_nil]
    · have hname : r.name ≠ r'.name := by
        intro h
        exact hnodup.1 (h ▸ List.mem_map_of_mem Repo.name hr')
      have hblock : (collect_one fetch today r').filter
          (fun e => decide (e.repo = r.name)) = [] := by
        rw [List.filter_eq_nil_iff]
        intro e he
        rw [collect_one_repo_tag fetch today r' e he]
        have hne : ¬r'.name = r.name := fun h => hname h.symm
        simp [hne]
      rw [hblock, List.nil_append]
      exact ih r hnodup.2 hr'

theorem collect_total_length (fetch : String → List String) (today : String)
    (rs : List Repo) (h : ∀ r ∈ rs, (fetch r.name).length ≤ r.stargazers_count) :
    (rs.flatMap (collect_one fetch today)).length =
      (rs.map Repo.stargazers_count).sum := by
  rw [List.length_flatMap]
  congr 1
  apply List.map_congr_left
  intro r hr
  exact collect_one_length fetch today r (h r hr)

theorem sort_by_stars_perm (repos : List Repo) : (sort_by_stars repos).Perm repos :=
  List.perm_insertionSort _ repos

/-- C7 (corrected): with distinct repository names and no more fetched
timestamps than declared stars, every repository's shortfall is backfilled
with exactly `stargazers_count - fetched` synthetic events dated at
`fallback_date` — the repository's creation date, else the date part of
its updated date, else the current date (line 102) — the total number of
collected events is the sum of the declared star counts, and the final
cumulative total of the aggregated series equals that sum.  (The original
claim's dating rule, creation date else current date, is wrong: the code
tries `updated_at` before the current date — see the counterexample.) -/
theorem claim_C7_backfill_reconciles (fetch : String → List String) (today : String)
    (repos : List Repo) (hnames : (repos.map Repo.name).Nodup)
    (hfetch : ∀ r ∈ repos, (fetch r.name).length ≤ r.stargazers_count) :
    (∀ r ∈ repos,
      ((sort_by_stars repos).flatMap (collect_one fetch today)).filter
          (fun e => decide (e.repo = r.name)) =
        (fetch r.name).map (fun ts => StarEvent.mk ts r.name) ++
          List.replicate (r.stargazers_count - (fetch r.name).length)
            (StarEvent.mk (fallback_date today r ++ "T00:00:00Z") r.name)) ∧
    ((sort_by_stars repos).flatMap (collect_one fetch today)).length =
      (repos.map Repo.stargazers_count).sum ∧
    (0 < (repos.map Repo.stargazers_count).sum →
      ∃ d, (aggregate_star_history fetch today repos).1.getLast? =
        some (d, (repos.map Repo.stargazers_count).sum)) := by
  have hperm := sort_by_stars_perm repos
  have hnames' : ((sort_by_stars repos).map Repo.name).Nodup :=
    ((hperm.map Repo.name).nodup_iff).mpr hnames
  have hlen : ((sort_by_stars repos).flatMap (collect_one fetch today)).length =
      (repos.map Repo.stargazers_count).sum := by
    rw [collect_total_length fetch today _
      (fun r hr => hfetch r (hperm.mem_iff.mp hr))]
    exact (hperm.map Repo.stargazers_count).sum_eq
  refine ⟨?_, hlen, ?_⟩
  · intro r hr
    rw [flatMap_filter_single fetch today _ r hnames' (hperm.mem_iff.mpr hr)]
    exact collect_one_eq fetch today r (hfetch r hr)
  · intro hpos
    have hne : (sort_by_stars repos).flatMap (collect_one fetch today) ≠ [] := by
      intro h
      rw [h] at hlen
      simp at hlen
      rw [← hlen] at hpos
      exact lt_irrefl 0 hpos
    obtain ⟨d, hd⟩ := aggregate_events_getLast _
      (repo_creations_of (sort_by_stars repos)) hne
    exact ⟨d, by rw [show (aggregate_star_history fetch today repos).1 =
      aggregate_events ((sort_by_stars repos).flatMap (collect_one fetch today))
        (repo_creations_of (sort_by_stars repos)) from rfl, hd, hlen]⟩

/-- C7, the counterexample to the original dating rule: a repository with
no creation date but an update date gets its synthetic events dated at the
update date, not at the current date. -/
theorem claim_C7_counterexample :
    (sort_by_stars [Repo.mk "m" 2 "" "2024-05-05T00:00:00Z" false]).flatMap
        (collect_one (fun _ => []) "2026-10-12") =
      [StarEvent.mk "2024-05-05T00:00:00Z" "m",
        StarEvent.mk "2024-05-05T00:00:00Z" "m"] ∧
    created_date (Repo.mk "m" 2 "" "2024-05-05T00:00:00Z" false) = "" ∧
    (∀ e ∈ (sort_by_stars [Repo.mk "m" 2 "" "2024-05-05T00:00:00Z" false]).flatMap
        (collect_one (fun _ => []) "2026-10-12"), event_date e ≠ "2026-10-12") := by
  decide

theorem claim_C7_witness :
    (∀ r ∈ [Repo.mk "m" 3 "2024-04-01T00:00:00Z" "2024-05-05T00:00:00Z" false],
      (([Repo.mk "m" 3 "2024-04-01T00:00:00Z" "2024-05-05T00:00:00Z" false].flatMap
          (collect_one (fun _ => ["2024-06-01T00:00:00Z"]) "2026-10-12")).filter
          (fun e => decide (e.repo = r.name)) =
        ((fun _ : String => ["2024-06-01T00:00:00Z"]) r.name).map
            (fun ts => StarEvent.mk ts r.name) ++
          List.replicate (r.stargazers_count -
              ((fun _ : String => ["2024-06-01T00:00:00Z"]) r.name).length)
            (StarEvent.mk (fallback_date "2026-10-12" r ++ "T00:00:00Z") r.name))) ∧
    (([Repo.mk "m" 3 "2024-04-01T00:00:00Z" "2024-05-05T00:00:00Z" false].flatMap
        (collect_one (fun _ => ["2024-06-01T00:00:00Z"]) "2026-10-12")).length = 3) ∧
    (0 < 3 →
      ∃ d, (aggregate_star_history (fun _ => ["2024-06-01T00:00:00Z"]) "2026-10-12"
          [Repo.mk "m" 3 "2024-04-01T00:00:00Z" "2024-05-05T00:00:00Z" false]).1.getLast? =
        some (d, 3)) := by
  have h := claim_C7_backfill_reconciles (fun _ => ["2024-06-01T00:00:00Z"]) "2026-10-12"
    [Repo.mk "m" 3 "2024-04-01T00:00:00Z" "2024-05-05T00:00:00Z" false]
    (by decide) (by decide)
  refine ⟨?_, ?_, ?_⟩
  · intro r hr
    have h1 := h.1 r hr
    rwa [show sort_by_stars
      [Repo.mk "m" 3 "2024-04-01T00:00:00Z" "2024-05-05T00:00:00Z" false] =
      [Repo.mk "m" 3 "2024-04-01T00:00:00Z" "2024-05-05T00:00:00Z" false] from rfl] at h1
  · have h2 := h.2.1
    rwa [show sort_by_stars
      [Repo.mk "m" 3 "2024-04-01T00:00:00Z" "2024-05-05T00:00:00Z" false] =
      [Repo.mk "m" 3 "2024-04-01T00:00:00Z" "2024-05-05T00:00:00Z" false] from rfl] at h2
  · exact fun hpos => h.2.2 hpos

/-! ### Claim C8: the pin bonus orders but never alters displayed stars -/

/-- C8 (confirmed): the ranked repository list is a permutation of the
(non-fork) input repositories ordered by descending `ranking_score` — raw
stars plus 6 exactly for pinned repositories — and every rendered table
row displays the repository's raw, unmodified `stargazers_count`. -/
theorem claim_C8_pin_bonus_sort_only (repos : List Repo) (pinned : List String) :
    (sorted_by_ranking pinned (own_repos_of repos)).Perm (own_repos_of repos) ∧
    (sorted_by_ranking pinned (own_repos_of repos)).Pairwise
      (fun a b => ranking_score pinned b ≤ ranking_score pinned a) ∧
    (∀ r : Repo, ranking_score pinned r =
      if r.name ∈ pinned then r.stargazers_count + 6 else r.stargazers_count) ∧
    (∀ row ∈ repo_table_rows pinned repos, ∃ r ∈ repos,
      row = (r.name, r.stargazers_count)) := by
  refine ⟨List.perm_insertionSort _ _, ?_, fun r => rfl, ?_⟩
  · haveI : IsTotal Repo
        (fun a b => ranking_score pinned b ≤ ranking_score pinned a) :=
      ⟨fun a b => (le_total (ranking_score pinned b) (ranking_score pinned a)).elim
        Or.inl Or.inr⟩
    haveI : IsTrans Repo
        (fun a b => ranking_score pinned b ≤ ranking_score pinned a) :=
      ⟨fun _ _ _ hab hbc => le_trans hbc hab⟩
    exact List.sorted_insertionSort _ _
  · intro row hrow
    obtain ⟨r, hr, rfl⟩ := List.mem_map.mp hrow
    refine ⟨r, ?_, rfl⟩
    have h1 : r ∈ sorted_by_ranking pinned (own_repos_of repos) :=
      List.mem_of_mem_filter (List.mem_of_mem_take hr)
    have h2 : r ∈ own_repos_of repos :=
      (List.perm_insertionSort _ _).mem_iff.mp h1
    exact List.mem_of_mem_filter h2

theorem claim_C8_witness :
    ∃ r ∈ [Repo.mk "a" 5 "" "" false, Repo.mk "b" 2 "" "" false],
      ("b", 2) = (r.name, r.stargazers_count) :=
  (claim_C8_pin_bonus_sort_only
    [Repo.mk "a" 5 "" "" false, Repo.mk "b" 2 "" "" false] ["b"]).2.2.2
    ("b", 2) (by decide)

/-! ### Properties of the rectangle-overlap test and the offset search -/

theorem boxes_overlap_comm (a b : Box) : boxes_overlap a b = boxes_overlap b a := by
  rw [Bool.eq_iff_iff]
  simp only [boxes_overlap, Bool.not_eq_true', Bool.or_eq_false_iff,
    decide_eq_false_iff_not, gt_iff_lt, not_lt]
  tauto

theorem find_label_position_box (lb : List Box) (x0 x1 mt Mt bt st : ℚ) (h : ℕ) :
    ∀ offs : List ℚ, (find_label_position lb x0 x1 mt Mt bt st h offs).2 =
      mk_label_box x0 x1 ((find_label_position lb x0 x1 mt Mt bt st h offs).1) h
  | [] => rfl
  | off :: rest => by
    rw [find_label_position]
    by_cases hany : lb.any (fun existing => boxes_overlap
        (mk_label_box x0 x1 (clamp mt Mt (bt + off * st)) h) existing) = true
    · simp only [hany, if_true]
      exact find_label_position_box lb x0 x1 mt Mt bt st h rest
    · simp [hany]

theorem clamp_mem (mt Mt v : ℚ) (hle : mt ≤ Mt) :
    mt ≤ clamp mt Mt v ∧ clamp mt Mt v ≤ Mt :=
  ⟨le_max_left _ _, max_le hle (min_le_right _ _)⟩

theorem find_label_position_top_mem (lb : List Box) (x0 x1 mt Mt bt st : ℚ) (h : ℕ)
    (hle : mt ≤ Mt) (hb1 : mt ≤ bt) (hb2 : bt ≤ Mt) :
    ∀ offs : List ℚ, mt ≤ (find_label_position lb x0 x1 mt Mt bt st h offs).1 ∧
      (find_label_position lb x0 x1 mt Mt bt st h offs).1 ≤ Mt
  | [] => ⟨hb1, hb2⟩
  | off :: rest => by
    rw [find_label_position]
    by_cases hany : lb.any (fun existing => boxes_overlap
        (mk_label_box x0 x1 (clamp mt Mt (bt + off * st)) h) existing) = true
    · simp only [hany, if_true]
      exact find_label_position_top_mem lb x0 x1 mt Mt bt st h hle hb1 hb2 rest
    · simp only [hany, if_false]
      exact clamp_mem mt Mt (bt + off * st) hle

theorem find_label_position_of_exhausted (lb : List Box) (x0 x1 mt Mt bt st : ℚ)
    (h : ℕ) : ∀ offs : List ℚ,
    offsets_exhausted lb x0 x1 mt Mt bt st h offs = true →
    find_label_position lb x0 x1 mt Mt bt st h offs = (bt, mk_label_box x0 x1 bt h)
  | [], _ => rfl
  | off :: rest, hex => by
    rw [offsets_exhausted, List.all_cons, Bool.and_eq_true] at hex
    rw [find_label_position]
    simp only [hex.1, if_true]
    exact find_label_position_of_exhausted lb x0 x1 mt Mt bt st h rest hex.2

theorem find_label_position_no_overlap (lb : List Box) (x0 x1 mt Mt bt st : ℚ)
    (h : ℕ) : ∀ offs : List ℚ,
    offsets_exhausted lb x0 x1 mt Mt bt st h offs = false →
    ∀ bx ∈ lb, boxes_overlap (find_label_position lb x0 x1 mt Mt bt st h offs).2 bx
      = false
  | [], hex => by simp [offsets_exhausted] at hex
  | off :: rest, hex => by
    rw [offsets_exhausted, List.all_cons] at hex
    by_cases hany : lb.any (fun existing => boxes_overlap
        (mk_label_box x0 x1 (clamp mt Mt (bt + off * st)) h) existing) = true
    · rw [find_label_position]
      simp only [hany, if_true]
      have hrest : offsets_exhausted lb x0 x1 mt Mt bt st h rest = false := by
        rcases Bool.and_eq_false_iff.mp hex with h' | h'
        · rw [hany] at h'; exact absurd h' (by simp)
        · exact h'
      exact find_label_position_no_overlap lb x0 x1 mt Mt bt st h rest hrest
    · rw [find_label_position]
      have hany' := Bool.not_eq_true _ |>.mp hany
      simp only [hany', if_false]
      intro bx hbx
      have := List.any_eq_false.mp hany' bx hbx
      simpa using this

theorem find_label_position_eq_find (lb : List Box) (x0 x1 mt Mt bt st : ℚ)
    (h : ℕ) : ∀ offs : List ℚ,
    find_label_position lb x0 x1 mt Mt bt st h offs =
      match offs.find? (fun off => !(lb.any (fun existing => boxes_overlap
          (mk_label_box x0 x1 (clamp mt Mt (bt + off * st)) h) existing))) with
      | some off => (clamp mt Mt (bt + off * st),
          mk_label_box x0 x1 (clamp mt Mt (bt + off * st)) h)
      | none => (bt, mk_label_box x0 x1 bt h)
  | [] => rfl
  | off :: rest => by
    by_cases hany : lb.any (fun existing => boxes_overlap
        (mk_label_box x0 x1 (clamp mt Mt (bt + off * st)) h) existing) = true
    · rw [find_label_position]
      simp only [hany, if_true]
      rw [List.find?_cons_of_neg _ (by simp [hany])]
      exact find_label_position_eq_find lb x0 x1 mt Mt bt st h rest
    · rw [find_label_position]
      rw [List.find?_cons_of_pos _ (by simp [Bool.not_eq_true _ |>.mp hany])]
      simp [hany]

theorem find_label_position_reverse (lb : List Box) (x0 x1 mt Mt bt st : ℚ)
    (h : ℕ) : ∀ offs : List ℚ,
    find_label_position lb.reverse x0 x1 mt Mt bt st h offs =
      find_label_position lb x0 x1 mt Mt bt st h offs
  | [] => rfl
  | off :: rest => by
    rw [find_label_position, find_label_position, List.any_reverse,
      find_label_position_reverse lb x0 x1 mt Mt bt st h rest]

theorem offsets_exhausted_reverse (lb : List Box) (x0 x1 mt Mt bt st : ℚ) (h : ℕ)
    (offs : List ℚ) :
    offsets_exhausted lb.reverse x0 x1 mt Mt bt st h offs =
      offsets_exhausted lb x0 x1 mt Mt bt st h offs := by
  unfold offsets_exhausted
  have : (fun off => lb.reverse.any (fun existing => boxes_overlap
      (mk_label_box x0 x1 (clamp mt Mt (bt + off * st)) h) existing)) =
      (fun off => lb.any (fun existing => boxes_overlap
        (mk_label_box x0 x1 (clamp mt Mt (bt + off * st)) h) existing)) :=
    funext fun off => List.any_reverse
  rw [this]

/-! ### The layout loop invariant -/

theorem place_one_consistent (lb : List Box) (n : Nat) (star_range : ℚ) (i : Nat)
    (date : String) (star_count : Nat) (repos : List String) :
    placed_consistent lb (place_one lb n star_range i date star_count repos) :=
  ⟨rfl, rfl⟩

theorem go_wf_nil : go_wf [] := by
  intro pre pl suf h
  exact absurd h.symm (by simp)

theorem go_wf_cons (placed : List PlacedLabel) (new : PlacedLabel)
    (hnew : placed_consistent (placed.map (fun q => q.label_box)) new)
    (hwf : go_wf placed) : go_wf (new :: placed) := by
  intro pre pl suf h
  cases pre with
  | nil =>
    simp only [List.nil_append, List.cons.injEq] at h
    rw [← h.1, ← h.2]
    exact hnew
  | cons q pre' =>
    simp only [List.cons_append, List.cons.injEq] at h
    exact hwf pre' pl suf h.2

theorem layout_go_wf (creations : List (String × List String)) (n : Nat)
    (star_range : ℚ) : ∀ (entries : List (Nat × (String × Nat)))
    (placed : List PlacedLabel), go_wf placed →
    go_wf (layout_go creations n star_range entries placed)
  | [], placed, hwf => hwf
  | (i, (date, star_count)) :: rest, placed, hwf => by
    rw [layout_go]
    cases hfc : find_creations creations date with
    | none =>
      exact layout_go_wf creations n star_range rest placed hwf
    | some repos =>
      exact layout_go_wf creations n star_range rest _
        (go_wf_cons placed _ (place_one_consistent _ n star_range i date star_count repos)
          hwf)

/-- Each label of the final layout is consistent with the boxes of the
labels placed before it. -/
theorem layout_labels_wf (history : List (String × Nat))
    (creations : List (String × List String)) (pre : List PlacedLabel)
    (pl : PlacedLabel) (suf : List PlacedLabel)
    (hdec : layout_labels history creations = pre ++ pl :: suf) :
    placed_consistent (pre.map (fun q => q.label_box)) pl := by
  have hgo : go_wf (layout_go creations history.length
      (if 0 < (history.map Prod.snd).foldr max 0
        then (Nat.cast ((history.map Prod.snd).foldr max 0) : ℚ) else 1)
      history.enum []) :=
    layout_go_wf _ _ _ _ [] go_wf_nil
  unfold layout_labels at hdec
  rw [List.reverse_eq_iff] at hdec
  rw [hdec] at hgo
  have hdecomp : (pre ++ pl :: suf).reverse = suf.reverse ++ pl :: pre.reverse := by
    rw [List.reverse_append, List.reverse_cons]
    simp
  rw [hdecomp] at hgo
  have hcons := hgo suf.reverse pl pre.reverse rfl
  unfold placed_consistent at hcons ⊢
  rw [List.map_reverse, find_label_position_reverse] at hcons
  exact hcons

/-- Every placed label is the output of `place_one` on some arguments. -/
theorem layout_go_mem (creations : List (String × List String)) (n : Nat)
    (star_range : ℚ) : ∀ (entries : List (Nat × (String × Nat)))
    (placed : List PlacedLabel) (pl : PlacedLabel),
    pl ∈ layout_go creations n star_range entries placed →
    pl ∈ placed ∨ ∃ lb i date star_count repos,
      pl = place_one lb n star_range i date star_count repos
  | [], _, pl, hmem => Or.inl hmem
  | (i, (date, star_count)) :: rest, placed, pl, hmem => by
    rw [layout_go] at hmem
    cases hfc : find_creations creations date with
    | none =>
      rw [hfc] at hmem
      exact layout_go_mem creations n star_range rest placed pl hmem
    | some repos =>
      rw [hfc] at hmem
      rcases layout_go_mem creations n star_range rest _ pl hmem with hin | hex
      · rcases List.mem_cons.mp hin with rfl | hin'
        · exact Or.inr ⟨placed.map (fun q => q.label_box), i, date, star_count,
            repos, rfl⟩
        · exact Or.inl hin'
      · exact Or.inr hex

theorem layout_labels_mem (history : List (String × Nat))
    (creations : List (String × List String)) (pl : PlacedLabel)
    (hmem : pl ∈ layout_labels history creations) :
    ∃ lb n star_range i date star_count repos,
      pl = place_one lb n star_range i date star_count repos := by
  unfold layout_labels at hmem
  rw [List.mem_reverse] at hmem
  rcases layout_go_mem _ _ _ _ [] pl hmem with hin | ⟨lb, i, date, sc, repos, hpl⟩
  · exact absurd hin (List.not_mem_nil pl)
  · exact ⟨lb, history.length, _, i, date, sc, repos, hpl⟩

/-! ### Evaluations of the layout engine on the concrete inputs -/

theorem tiny_w : label_width_of (label_lines_of ["r"] "2024-01-02") = 80 := by decide

theorem tiny_h : label_height_of (label_lines_of ["r"] "2024-01-02") = 24 := by decide

theorem dense_w1 : label_width_of (label_lines_of dense_names "2024-01-01") = 210 := by
  decide

theorem dense_h1 : label_height_of (label_lines_of dense_names "2024-01-01") = 312 := by
  decide

theorem dense_w2 : label_width_of (label_lines_of ["r2"] "2024-01-02") = 80 := by decide

theorem dense_h2 : label_height_of (label_lines_of ["r2"] "2024-01-02") = 24 := by decide

theorem right_w :
    label_width_of (label_lines_of ["a-repository-name-of-30-chars0"] "2024-01-04") =
      192 := by decide

theorem right_h :
    label_height_of (label_lines_of ["a-repository-name-of-30-chars0"] "2024-01-04") =
      24 := by decide

theorem ne_d1_d2 : ("2024-01-01" : String) ≠ "2024-01-02" := by decide

theorem ne_d1_d3 : ("2024-01-01" : String) ≠ "2024-01-03" := by decide

theorem ne_d1_d4 : ("2024-01-01" : String) ≠ "2024-01-04" := by decide

theorem ne_d1_d5 : ("2024-01-01" : String) ≠ "2024-01-05" := by decide

theorem ne_d2_d1 : ("2024-01-02" : String) ≠ "2024-01-01" := by decide

theorem ne_d2_d3 : ("2024-01-02" : String) ≠ "2024-01-03" := by decide

theorem ne_d2_d4 : ("2024-01-02" : String) ≠ "2024-01-04" := by decide

theorem ne_d2_d5 : ("2024-01-02" : String) ≠ "2024-01-05" := by decide

theorem ne_d4_d1 : ("2024-01-04" : String) ≠ "2024-01-01" := by decide

theorem ne_d4_d2 : ("2024-01-04" : String) ≠ "2024-01-02" := by decide

theorem ne_d4_d3 : ("2024-01-04" : String) ≠ "2024-01-03" := by decide

theorem ne_d4_d5 : ("2024-01-04" : String) ≠ "2024-01-05" := by decide

set_option maxRecDepth 8000 in
set_option maxHeartbeats 1000000 in
theorem tiny_place_eval : place_one [] 2 2 1 "2024-01-02" 2 ["r"] = tiny_pl := by
  norm_num [place_one, get_x, get_y, find_label_position, clamp, mk_label_box,
    boxes_overlap, label_position_offsets, canvas_width, canvas_height, chart_width,
    chart_height, padding_left, padding_right, padding_top, padding_bottom,
    label_padding, min_top_const, max_top_of, step_of, tiny_w, tiny_h, tiny_pl]

set_option maxRecDepth 8000 in
set_option maxHeartbeats 1000000 in
theorem tiny_eval : layout_labels tiny_history tiny_creations = [tiny_pl] := by
  norm_num [layout_labels, tiny_history, tiny_creations, layout_go, find_creations,
    List.enum, List.enumFrom, tiny_place_eval, ne_d2_d1]

set_option maxRecDepth 8000 in
set_option maxHeartbeats 1000000 in
theorem dense_place1_eval : place_one [] 5 5 0 "2024-01-01" 1 dense_names = dense_pl1 := by
  norm_num [place_one, get_x, get_y, find_label_position, clamp, mk_label_box,
    boxes_overlap, label_position_offsets, canvas_width, canvas_height, chart_width,
    chart_height, padding_left, padding_right, padding_top, padding_bottom,
    label_padding, min_top_const, max_top_of, step_of, dense_w1, dense_h1, dense_pl1]

set_option maxRecDepth 8000 in
set_option maxHeartbeats 1000000 in
theorem dense_place2_eval :
    place_one [{ x_min := 72, x_max := 282, y_min := 60, y_max := 380 }]
      5 5 1 "2024-01-02" 2 ["r2"] = dense_pl2 := by
  norm_num [place_one, get_x, get_y, find_label_position, clamp, mk_label_box,
    boxes_overlap, label_position_offsets, canvas_width, canvas_height, chart_width,
    chart_height, padding_left, padding_right, padding_top, padding_bottom,
    label_padding, min_top_const, max_top_of, step_of, dense_w2, dense_h2, dense_pl2]

set_option maxRecDepth 8000 in
set_option maxHeartbeats 1000000 in
theorem dense_eval : layout_labels dense_history dense_creations =
    [dense_pl1, dense_pl2] := by
  norm_num [layout_labels, dense_history, dense_creations, layout_go, find_creations,
    List.enum, List.enumFrom, dense_place1_eval, dense_place2_eval, dense_pl1,
    dense_pl2, ne_d1_d2, ne_d1_d3, ne_d1_d4, ne_d1_d5, ne_d2_d1, ne_d2_d3,
    ne_d2_d4, ne_d2_d5]

set_option maxRecDepth 8000 in
set_option maxHeartbeats 1000000 in
theorem right_place_eval :
    place_one [] 5 5 3 "2024-01-04" 4 ["a-repository-name-of-30-chars0"] = right_pl := by
  norm_num [place_one, get_x, get_y, find_label_position, clamp, mk_label_box,
    boxes_overlap, label_position_offsets, canvas_width, canvas_height, chart_width,
    chart_height, padding_left, padding_right, padding_top, padding_bottom,
    label_padding, min_top_const, max_top_of, step_of, right_w, right_h, right_pl]

set_option maxRecDepth 8000 in
set_option maxHeartbeats 1000000 in
theorem right_eval : layout_labels right_history right_creations = [right_pl] := by
  norm_num [layout_labels, right_history, right_creations, layout_go, find_creations,
    List.enum, List.enumFrom, right_place_eval, ne_d4_d1, ne_d4_d2, ne_d4_d3, ne_d4_d5]

/-! ### Claims C9, C5, C1, C6, C10 -/

/-- C9 (confirmed): the rectangle-overlap test is symmetric, and two
well-formed boxes that merely share an edge coordinate are reported as
overlapping, because all four separation comparisons of line 224 are
strict. -/
theorem claim_C9_overlap_symmetric_and_touching :
    (∀ a b : Box, boxes_overlap a b = boxes_overlap b a) ∧
    (∀ a b : Box, a.x_min ≤ a.x_max → b.x_min ≤ b.x_max → a.x_max = b.x_min →
      b.y_min ≤ a.y_max → a.y_min ≤ b.y_max → boxes_overlap a b = true) := by
  refine ⟨boxes_overlap_comm, ?_⟩
  intro a b ha hb hx hy1 hy2
  simp only [boxes_overlap, Bool.not_eq_true', Bool.or_eq_false_iff,
    decide_eq_false_iff_not, gt_iff_lt, not_lt]
  refine ⟨⟨⟨?_, ?_⟩, ?_⟩, ?_⟩ <;> linarith [hx.le, hx.ge]

theorem claim_C9_witness :
    (boxes_overlap (Box.mk 0 1 0 1) (Box.mk 1 2 0 1) =
      boxes_overlap (Box.mk 1 2 0 1) (Box.mk 0 1 0 1)) ∧
    boxes_overlap (Box.mk 0 1 0 1) (Box.mk 1 2 0 1) = true :=
  ⟨claim_C9_overlap_symmetric_and_touching.1 (Box.mk 0 1 0 1) (Box.mk 1 2 0 1),
    claim_C9_overlap_symmetric_and_touching.2 (Box.mk 0 1 0 1) (Box.mk 1 2 0 1)
      (by norm_num) (by norm_num) (by norm_num) (by norm_num) (by norm_num)⟩

/-- C5 (confirmed): whenever a placed label's box intersects the box of an
earlier-placed label, every candidate offset of the search order was
exhausted for that later label. -/
theorem claim_C5_no_overlap_unless_exhausted (history : List (String × Nat))
    (creations : List (String × List String)) (pre : List PlacedLabel)
    (pl : PlacedLabel) (suf : List PlacedLabel)
    (hdec : layout_labels history creations = pre ++ pl :: suf)
    (q : PlacedLabel) (hq : q ∈ pre)
    (hover : boxes_overlap q.label_box pl.label_box = true) :
    offsets_exhausted (pre.map (fun x => x.label_box)) pl.x_min pl.x_max
      min_top_const (max_top_of pl.label_height) pl.base_top
      (step_of pl.label_height) pl.label_height label_position_offsets = true := by
  by_contra hex
  rw [Bool.not_eq_true] at hex
  have hcons := layout_labels_wf history creations pre pl suf hdec
  unfold placed_consistent at hcons
  have hno := find_label_position_no_overlap (pre.map (fun q => q.label_box))
    pl.x_min pl.x_max min_top_const (max_top_of pl.label_height) pl.base_top
    (step_of pl.label_height) pl.label_height label_position_offsets hex
    q.label_box (List.mem_map_of_mem _ hq)
  rw [← hcons.2] at hno
  rw [boxes_overlap_comm] at hover
  rw [hover] at hno
  exact absurd hno (by simp)

theorem claim_C5_witness :
    offsets_exhausted ([dense_pl1].map (fun x => x.label_box)) dense_pl2.x_min
      dense_pl2.x_max min_top_const (max_top_of dense_pl2.label_height)
      dense_pl2.base_top (step_of dense_pl2.label_height) dense_pl2.label_height
      label_position_offsets = true :=
  claim_C5_no_overlap_unless_exhausted dense_history dense_creations [dense_pl1]
    dense_pl2 [] (by rw [dense_eval]; rfl) dense_pl1 (List.mem_cons_self _ _)
    (by norm_num [boxes_overlap, dense_pl1, dense_pl2])

/-- C1 (corrected): each annotated point's vertical position is the first
candidate of the fixed offset sequence (0, +1, −1, …, +8, −8), scaled by
`label_height + 2 * label_padding` and clamped, whose box overlaps no
previously placed box; when every candidate overlaps, the label stays at
the initial clamped base position — the offset-0 position — not at the
last candidate offset of the sequence. -/
theorem claim_C1_first_fit_with_base_fallback (history : List (String × Nat))
    (creations : List (String × List String)) (pre : List PlacedLabel)
    (pl : PlacedLabel) (suf : List PlacedLabel)
    (hdec : layout_labels history creations = pre ++ pl :: suf) :
    pl.label_top =
      (match label_position_offsets.find? (fun off =>
          !((pre.map (fun q => q.label_box)).any (fun existing => boxes_overlap
            (mk_label_box pl.x_min pl.x_max
              (clamp min_top_const (max_top_of pl.label_height)
                (pl.base_top + off * step_of pl.label_height)) pl.label_height)
            existing))) with
        | some off => clamp min_top_const (max_top_of pl.label_height)
            (pl.base_top + off * step_of pl.label_height)
        | none => pl.base_top) := by
  have hcons := layout_labels_wf history creations pre pl suf hdec
  unfold placed_consistent at hcons
  rw [hcons.1, find_label_position_eq_find]
  cases hfind : label_position_offsets.find? (fun off =>
      !((pre.map (fun q => q.label_box)).any (fun existing => boxes_overlap
        (mk_label_box pl.x_min pl.x_max
          (clamp min_top_const (max_top_of pl.label_height)
            (pl.base_top + off * step_of pl.label_height)) pl.label_height)
        existing))) with
  | none => simp [hfind]
  | some off => simp [hfind]

theorem claim_C1_witness :
    tiny_pl.label_top =
      (match label_position_offsets.find? (fun off =>
          !((([] : List PlacedLabel).map (fun q => q.label_box)).any
            (fun existing => boxes_overlap
              (mk_label_box tiny_pl.x_min tiny_pl.x_max
                (clamp min_top_const (max_top_of tiny_pl.label_height)
                  (tiny_pl.base_top + off * step_of tiny_pl.label_height))
                tiny_pl.label_height) existing))) with
        | some off => clamp min_top_const (max_top_of tiny_pl.label_height)
            (tiny_pl.base_top + off * step_of tiny_pl.label_height)
        | none => tiny_pl.base_top) :=
  claim_C1_first_fit_with_base_fallback tiny_history tiny_creations [] tiny_pl []
    (by rw [tiny_eval]; rfl)

/-- C1, the counterexample to the original claim: on `dense_history` every
candidate offset of the second label overlaps the first label's box, yet
the label is placed at its base position 204 — not at the position of the
last candidate of the sequence (multiplier −8, which clamps to 64). -/
theorem claim_C1_counterexample :
    layout_labels dense_history dense_creations = [dense_pl1, dense_pl2] ∧
    offsets_exhausted [dense_pl1.label_box] dense_pl2.x_min dense_pl2.x_max
      min_top_const (max_top_of dense_pl2.label_height) dense_pl2.base_top
      (step_of dense_pl2.label_height) dense_pl2.label_height
      label_position_offsets = true ∧
    label_position_offsets.getLast? = some (-8) ∧
    dense_pl2.label_top ≠ clamp min_top_const (max_top_of dense_pl2.label_height)
      (dense_pl2.base_top + (-8) * step_of dense_pl2.label_height) := by
  refine ⟨dense_eval, ?_, rfl, ?_⟩
  · norm_num [offsets_exhausted, label_position_offsets, clamp, mk_label_box,
      boxes_overlap, dense_pl1, dense_pl2, min_top_const, max_top_of, step_of,
      padding_top, chart_height, canvas_height, padding_bottom, label_padding]
  · norm_num [dense_pl2, clamp, min_top_const, max_top_of, step_of, padding_top,
      chart_height, canvas_height, padding_bottom, label_padding]

/-- The horizontal-placement fields of any label produced by `place_one`:
the side is chosen by `x < canvas_width - (label_width + padding_right)`
(line 241), with the anchor mirrored on the left side. -/
theorem place_one_horizontal (lb : List Box) (n : Nat) (sr : ℚ) (i : Nat)
    (date : String) (sc : Nat) (repos : List String) :
    ((place_one lb n sr i date sc repos).place_right = true ↔
      (place_one lb n sr i date sc repos).x < canvas_width -
        (((place_one lb n sr i date sc repos).label_width : ℚ) + padding_right)) ∧
    ((place_one lb n sr i date sc repos).place_right = true →
      (place_one lb n sr i date sc repos).label_x =
          (place_one lb n sr i date sc repos).x + 12 ∧
        (place_one lb n sr i date sc repos).text_anchor = "start" ∧
        (place_one lb n sr i date sc repos).x_min =
          (place_one lb n sr i date sc repos).label_x ∧
        (place_one lb n sr i date sc repos).x_max =
          (place_one lb n sr i date sc repos).label_x +
            ((place_one lb n sr i date sc repos).label_width : ℚ)) ∧
    ((place_one lb n sr i date sc repos).place_right = false →
      (place_one lb n sr i date sc repos).label_x =
          (place_one lb n sr i date sc repos).x - 12 ∧
        (place_one lb n sr i date sc repos).text_anchor = "end" ∧
        (place_one lb n sr i date sc repos).x_min =
          (place_one lb n sr i date sc repos).label_x -
            ((place_one lb n sr i date sc repos).label_width : ℚ) ∧
        (place_one lb n sr i date sc repos).x_max =
          (place_one lb n sr i date sc repos).label_x) := by
  by_cases hP : get_x n i < canvas_width -
      ((label_width_of (label_lines_of repos date) : ℚ) + padding_right)
  · refine ⟨?_, ?_, ?_⟩
    · simp [place_one, hP]
    · intro _
      simp [place_one, hP]
    · intro hfalse
      simp [place_one, hP] at hfalse
  · refine ⟨?_, ?_, ?_⟩
    · simp [place_one, hP]
    · intro htrue
      simp [place_one, hP] at htrue
    · intro _
      simp [place_one, hP]

/-- C6 (corrected): the label is placed to the right of the point if and
only if the point's x plus the label width stays strictly below the
canvas width minus the right padding — the check of line 241 ignores the
12-pixel horizontal gap, so a right-placed label's actual right edge
(`x + 12 + label_width`) can exceed `canvas_width - padding_right` by up
to 12 — and when placed to the left the text anchor is mirrored from
`start` to `end`. -/
theorem claim_C6_horizontal_side (history : List (String × Nat))
    (creations : List (String × List String)) (pl : PlacedLabel)
    (hmem : pl ∈ layout_labels history creations) :
    (pl.place_right = true ↔
      pl.x < canvas_width - ((pl.label_width : ℚ) + padding_right)) ∧
    (pl.place_right = true → pl.label_x = pl.x + 12 ∧ pl.text_anchor = "start" ∧
      pl.x_min = pl.label_x ∧ pl.x_max = pl.label_x + (pl.label_width : ℚ)) ∧
    (pl.place_right = false → pl.label_x = pl.x - 12 ∧ pl.text_anchor = "end" ∧
      pl.x_min = pl.label_x - (pl.label_width : ℚ) ∧ pl.x_max = pl.label_x) := by
  obtain ⟨lb, n, sr, i, date, sc, repos, rfl⟩ :=
    layout_labels_mem history creations pl hmem
  exact place_one_horizontal lb n sr i date sc repos

theorem claim_C6_witness :
    (tiny_pl.place_right = true ↔
      tiny_pl.x < canvas_width - ((tiny_pl.label_width : ℚ) + padding_right)) ∧
    (tiny_pl.place_right = true → tiny_pl.label_x = tiny_pl.x + 12 ∧
      tiny_pl.text_anchor = "start" ∧ tiny_pl.x_min = tiny_pl.label_x ∧
      tiny_pl.x_max = tiny_pl.label_x + (tiny_pl.label_width : ℚ)) ∧
    (tiny_pl.place_right = false → tiny_pl.label_x = tiny_pl.x - 12 ∧
      tiny_pl.text_anchor = "end" ∧
      tiny_pl.x_min = tiny_pl.label_x - (tiny_pl.label_width : ℚ) ∧
      tiny_pl.x_max = tiny_pl.label_x) :=
  claim_C6_horizontal_side tiny_history tiny_creations tiny_pl
    (by rw [tiny_eval]; exact List.mem_cons_self _ _)

/-- C6, the counterexample to the original claim: on `right_history` the
label at x = 660 with width 192 is placed to the right (anchor `start`)
although its right edge 672 + 192 = 864 exceeds the canvas width minus
the right padding, 860. -/
theorem claim_C6_counterexample :
    layout_labels right_history right_creations = [right_pl] ∧
    right_pl.place_right = true ∧ right_pl.text_anchor = "start" ∧
    canvas_width - padding_right < right_pl.label_x + (right_pl.label_width : ℚ) := by
  refine ⟨right_eval, rfl, rfl, ?_⟩
  norm_num [right_pl, canvas_width, padding_right]

/-- The clamped base position of any label produced by `place_one`. -/
theorem place_one_base_top_mem (lb : List Box) (n : Nat) (sr : ℚ) (i : Nat)
    (date : String) (sc : Nat) (repos : List String)
    (hle : min_top_const ≤ max_top_of (place_one lb n sr i date sc repos).label_height) :
    min_top_const ≤ (place_one lb n sr i date sc repos).base_top ∧
      (place_one lb n sr i date sc repos).base_top ≤
        max_top_of (place_one lb n sr i date sc repos).label_height := by
  have hbt : (place_one lb n sr i date sc repos).base_top =
      clamp min_top_const (max_top_of (place_one lb n sr i date sc repos).label_height)
        (get_y sr sc -
          ((place_one lb n sr i date sc repos).label_height : ℚ) / 2) := rfl
  rw [hbt]
  exact clamp_mem _ _ _ hle

/-- C10 (confirmed): every placed label whose height plus twice the label
padding fits in the chart height has its box entirely inside the chart's
vertical band — every candidate position, and the base fallback, is
clamped into `[min_top, max_top]` (lines 250, 261). -/
theorem claim_C10_labels_within_vertical_bounds (history : List (String × Nat))
    (creations : List (String × List String)) (pl : PlacedLabel)
    (hmem : pl ∈ layout_labels history creations)
    (hh : (pl.label_height : ℚ) + 2 * (label_padding : ℚ) ≤ chart_height) :
    padding_top ≤ pl.label_box.y_min ∧
      pl.label_box.y_max ≤ padding_top + chart_height := by
  obtain ⟨lb, n, sr, i, date, sc, repos, rfl⟩ :=
    layout_labels_mem history creations pl hmem
  have hle : min_top_const ≤
      max_top_of (place_one lb n sr i date sc repos).label_height := by
    unfold min_top_const max_top_of
    linarith
  have hbase := place_one_base_top_mem lb n sr i date sc repos hle
  have hcons := place_one_consistent lb n sr i date sc repos
  unfold placed_consistent at hcons
  have htopmem := find_label_position_top_mem lb
    (place_one lb n sr i date sc repos).x_min (place_one lb n sr i date sc repos).x_max
    min_top_const (max_top_of (place_one lb n sr i date sc repos).label_height)
    (place_one lb n sr i date sc repos).base_top
    (step_of (place_one lb n sr i date sc repos).label_height)
    (place_one lb n sr i date sc repos).label_height hle hbase.1 hbase.2
    label_position_offsets
  rw [← hcons.1] at htopmem
  have hbox := hcons.2
  rw [find_label_position_box, ← hcons.1] at hbox
  rw [hbox]
  unfold mk_label_box
  unfold min_top_const max_top_of at htopmem
  constructor
  · simp only
    linarith [htopmem.1]
  · simp only
    linarith [htopmem.2]

theorem claim_C10_witness :
    padding_top ≤ tiny_pl.label_box.y_min ∧
      tiny_pl.label_box.y_max ≤ padding_top + chart_height :=
  claim_C10_labels_within_vertical_bounds tiny_history tiny_creations tiny_pl
    (by rw [tiny_eval]; exact List.mem_cons_self _ _)
    (by norm_num [tiny_pl, label_padding, chart_height, canvas_height, padding_top,
      padding_bottom])

end GenerateReadme
